import Mathlib

/-!
Shallow embedding of the win-pipe library (Windows named-pipe IPC).

The repository ships several variants of one single-file header:
* `win-pipe.h` (current): a receiver with one blocking worker thread and a
  single pipe instance, plus a sender with a one-shot reconnect-and-retry
  `send`.  Modelled in namespace `WinPipe.Current`.
* an overlapped-I/O variant with an acceptance pool of pipe instances and a
  `WaitForMultipleObjects` multiplexer loop (`receiver::thread`,
  `add_pipe` / `remove_pipe` / `clear_pipes`).  Modelled in namespace
  `WinPipe.Pool`.
* an older shared-ptr variant whose constructor clamps the buffer size with
  `max(buffer_size, MIN_BUFFER_SIZE)`.  Its size computation is modelled in
  `WinPipe.Legacy`.

OS primitives (ReadFile on a message-mode pipe, PeekNamedPipe,
GetOverlappedResult, WaitForMultipleObjects, event and pipe handles) are
modelled by explicit oracles: the library code is translated faithfully, and
every OS decision point is a parameter of the model.
-/

namespace WinPipe

namespace Current

/-- Model of `std::vector<uint8_t>::resize`: the prefix up to the new size is
preserved, growth appends value-initialized (zero) bytes. -/
def listResize (l : List Nat) (n : Nat) : List Nat :=
  l.take n ++ List.replicate (n - l.length) 0

/-- Model of writing `data` into a byte buffer starting at offset `off`
(as `ReadFile(pipe, buffer.data() + off, ...)` does). -/
def writeAt (buf : List Nat) (off : Nat) (data : List Nat) : List Nat :=
  buf.take off ++ data ++ buf.drop (off + data.length)

/-- Observable outcome of one iteration of the inner read loop in
`receiver::thread` (`win-pipe.h`): the staging buffer afterwards, and the
arguments of the single callback invocation. -/
structure ReadIterResult where
  buffer : List Nat
  deliveredData : List Nat
  deliveredLen : Nat
  callbackCount : Nat
  deriving Repr, DecidableEq

/-- One iteration of the inner read loop of `receiver::thread` in
`win-pipe.h`, reading one message `msg` that is at the head of the pipe into
the staging buffer `buffer`.

Source (`win-pipe.h`):
```
DWORD bytes_read = 0;
if (!ReadFile(pipe, buffer.data(), (DWORD)buffer.size(), &bytes_read, NULL)) {
    if (GetLastError() != ERROR_MORE_DATA)
        break;
    DWORD leftover = 0;
    PeekNamedPipe(pipe, NULL, NULL, NULL, NULL, &leftover);
    buffer.resize(bytes_read + leftover);
    DWORD more_bytes_read = 0;
    ReadFile(pipe, buffer.data() + bytes_read, leftover, &more_bytes_read, NULL);
    bytes_read += more_bytes_read;
}
std::lock_guard lock \x7b callback_mutex \x7d;
callback(buffer.data(), (size_t)bytes_read);
```
OS model for a message-mode pipe: if the message fits the buffer, `ReadFile`
succeeds and reads it whole; otherwise it fills the buffer with the first
`buffer.size()` bytes, reports `ERROR_MORE_DATA` with `bytes_read` equal to
the buffer size, `PeekNamedPipe` reports the remaining byte count, and the
follow-up `ReadFile` reads exactly the remaining bytes. -/
def threadReadIteration (buffer msg : List Nat) : ReadIterResult :=
  if msg.length ≤ buffer.length then
    let bytesRead := msg.length
    let buf1 := writeAt buffer 0 msg
    { buffer := buf1
      deliveredData := buf1.take bytesRead
      deliveredLen := bytesRead
      callbackCount := 1 }
  else
    let bytesRead := buffer.length
    let buf1 := writeAt buffer 0 (msg.take buffer.length)
    let leftover := msg.length - bytesRead
    let buf2 := listResize buf1 (bytesRead + leftover)
    let buf3 := writeAt buf2 bytesRead ((msg.drop bytesRead).take leftover)
    let total := bytesRead + leftover
    { buffer := buf3
      deliveredData := buf3.take total
      deliveredLen := total
      callbackCount := 1 }

/-- Outcome of one `WriteFile` call, as observed by the sender code. -/
inductive WriteResult where
  | success
  | failure (error : Nat)
  deriving Repr, DecidableEq

/-- Windows error code `ERROR_INVALID_HANDLE`. -/
def ERROR_INVALID_HANDLE : Nat := 6

/-- Windows error code `ERROR_PIPE_NOT_CONNECTED`. -/
def ERROR_PIPE_NOT_CONNECTED : Nat := 233

/-- Observable trace of a `sender::send` call: its boolean result, how many
reconnects (`connect()` calls), how many `WriteFile` attempts, and how many
`FlushFileBuffers` calls were made. -/
structure SendOutcome where
  result : Bool
  reconnects : Nat
  writeAttempts : Nat
  flushes : Nat
  deriving Repr, DecidableEq

/-- Model of `sender::send` from `win-pipe.h`.  `firstWrite` is the outcome
of the initial `WriteFile` on the current handle; `retryWrite` the outcome of
the retried `WriteFile` after `connect()` (only consulted on the retry path).

Source:
```
if (WriteFile(m_pipe.get(), buffer, size, NULL, NULL) == FALSE) \x7b
    DWORD error = GetLastError();
    switch (error) \x7b
    case ERROR_INVALID_HANDLE:
    case ERROR_PIPE_NOT_CONNECTED:
        connect();
        break;
    default:
        return false;
    \x7d
    if (WriteFile(m_pipe.get(), buffer, size, NULL, NULL) == FALSE)
        return false;
\x7d
FlushFileBuffers(m_pipe.get());
return true;
``` -/
def send (firstWrite retryWrite : WriteResult) : SendOutcome :=
  match firstWrite with
  | .success => { result := true, reconnects := 0, writeAttempts := 1, flushes := 1 }
  | .failure error =>
    if error = ERROR_INVALID_HANDLE ∨ error = ERROR_PIPE_NOT_CONNECTED then
      match retryWrite with
      | .success => { result := true, reconnects := 1, writeAttempts := 2, flushes := 1 }
      | .failure _ => { result := false, reconnects := 1, writeAttempts := 2, flushes := 0 }
    else
      { result := false, reconnects := 0, writeAttempts := 1, flushes := 0 }

/-- Observable state built by the `receiver` constructor when it succeeds. -/
structure CtorOutcome where
  threadStarted : Bool
  deriving Repr, DecidableEq

/-- Model of the `receiver(name, callback)` constructor in `win-pipe.h`.
`pipeValid` is the outcome of `CreateNamedPipeA` (`false` means it returned
`INVALID_HANDLE_VALUE`), `errCode` the value `GetLastError()` reports then.

Source: on an invalid pipe handle the constructor throws
`std::runtime_error("Pipe creation failed: " + error)` before ever reaching
`CreateThread`; otherwise it stores the callback, creates the stop event and
starts the worker thread. -/
def receiverCtor (pipeValid : Bool) (errCode : Nat) : Except String CtorOutcome :=
  if pipeValid then
    .ok { threadStarted := true }
  else
    .error ("Pipe creation failed: " ++ toString errCode)

/-- Size of a `DWORD` modulus, `2 ^ 32`. -/
def dwordMod : Nat := 4294967296

/-- Model of the buffer-size computation of the pool-variant receiver
constructor, with `DWORD` wrap-around made explicit:
```
DWORD trunc = buffer_size % 1024;
if (trunc == 0)
    trunc = 1024;
m_param->buffer_size = buffer_size - trunc + 1024;
``` -/
def effectiveBufferSize (bufferSize : Nat) : Nat :=
  let trunc := bufferSize % 1024
  let trunc2 := if trunc = 0 then 1024 else trunc
  (bufferSize + dwordMod - trunc2 + 1024) % dwordMod

end Current

namespace Legacy

/-- Constant `MIN_BUFFER_SIZE` of the shared-ptr receiver variant. -/
def MIN_BUFFER_SIZE : Nat := 1024

/-- Model of `m_param->buffer_size = (std::max)(buffer_size, MIN_BUFFER_SIZE)`
from the shared-ptr receiver variant constructor. -/
def effectiveBufferSize (bufferSize : Nat) : Nat :=
  max bufferSize MIN_BUFFER_SIZE

end Legacy

namespace Pool

/-- The `pipe_state` enumeration of the pool-variant receiver. -/
inductive PipeState where
  | connecting
  | reading
  | sending
  deriving Repr, DecidableEq

/-- One `instance` of the pool-variant receiver: a pipe endpoint with its
overlapped completion event (identified here by the numeric handle `signal`),
its read-state machine state and its `pending` flag.  The staging buffer is
not needed for the pool-level claims and is left out of this model. -/
structure Instance where
  signal : Nat
  state : PipeState
  pending : Bool
  deriving Repr, DecidableEq

/-- The `thread_param` of the pool-variant receiver: the instance list, the
parallel event-handle list handed to `WaitForMultipleObjects`, a fresh-handle
counter modelling that `CreateEventA` returns previously unused handles, and
the stored callback (identified by a numeric id). -/
structure ThreadParam where
  instances : List Instance
  events : List Nat
  nextHandle : Nat
  callback : Nat
  deriving Repr, DecidableEq

/-- Observable events emitted by the worker thread and by `set_callback`. -/
inductive Event where
  | lockAcquire
  | lockRelease
  | callbackInvoke (signal : Nat)
  | callbackStore
  | readIssue (signal : Nat)
  | addSlot (signal : Nat)
  | disconnectPipe (signal : Nat)
  | closeSignal (signal : Nat)
  | closePipe (signal : Nat)
  deriving Repr, DecidableEq

/-- Teardown events of `delete_instance`: `DisconnectNamedPipe`,
`CloseHandle(overlap.hEvent)`, and the pipe handle closed by the
`unique_handle` destructor when the instance is reset. -/
def deleteInstanceEvents (inst : Instance) : List Event :=
  [.disconnectPipe inst.signal, .closeSignal inst.signal, .closePipe inst.signal]

/-- Model of `add_pipe`: `create_instance` either fails (`createOk = false`;
the failure is silently dropped and `false` returned) or yields a fresh
instance in `connecting` state with `pending = true`, which is appended to
`instances` while its completion event is appended to `events`. -/
def addPipe (p : ThreadParam) (createOk : Bool) : ThreadParam × List Event × Bool :=
  if createOk then
    ({ p with
        instances := p.instances ++ [{ signal := p.nextHandle, state := .connecting, pending := true }]
        events := p.events ++ [p.nextHandle]
        nextHandle := p.nextHandle + 1 },
      [.addSlot p.nextHandle], true)
  else
    (p, [], false)

/-- Model of `remove_pipe`: `delete_instance` on the slot at `index`, then
erase that position from both `instances` and `events`. -/
def removePipe (p : ThreadParam) (index : Nat) : ThreadParam × List Event :=
  match p.instances[index]? with
  | none => (p, [])
  | some inst =>
    ({ p with
        instances := p.instances.eraseIdx index
        events := p.events.eraseIdx index },
      deleteInstanceEvents inst)

/-- Model of `clear_pipes`: `delete_instance` on every slot, then clear both
collections. -/
def clearPipes (p : ThreadParam) : ThreadParam × List Event :=
  ({ p with instances := [], events := [] },
    (p.instances.map deleteInstanceEvents).flatten)

/-- The three outcomes the worker distinguishes after calling `ReadFile` with
an overlapped structure, plus the immediate-success case. -/
inductive ReadOutcome where
  | immediate
  | moreData
  | ioPending
  | failed
  deriving Repr, DecidableEq

/-- Oracle for one pass of the multiplexer loop: which slot index (if any)
`WaitForMultipleObjects` reports ready, the `GetOverlappedResult` outcome
(`ovSuccess`, and when it fails whether `GetLastError()` is
`ERROR_MORE_DATA`), whether `create_instance` succeeds if `add_pipe` runs
this pass, and the `ReadFile` outcome if a read is issued this pass. -/
structure PassOracle where
  signaledIndex : Option Nat
  ovSuccess : Bool
  ovMoreData : Bool
  createOk : Bool
  readOutcome : ReadOutcome
  deriving Repr, DecidableEq

/-- Replace the slot at `index`. -/
def setSlot (p : ThreadParam) (index : Nat) (inst : Instance) : ThreadParam :=
  { p with instances := p.instances.set index inst }

/-- The second `switch (inst->state)` of the worker loop body: issue a read
and/or deliver.  On `reading`, `ReadFile` is issued; immediate completion or
`ERROR_MORE_DATA` clears `pending` and falls through to the delivery case
(callback under the callback mutex, then `pending = false`,
`state = reading`); `ERROR_IO_PENDING` sets `pending`; any other error runs
`remove_pipe`.  On `sending`, only the delivery block runs.  On `connecting`
(the `default` label) nothing happens. -/
def serviceSlot (p : ThreadParam) (index : Nat) (o : PassOracle) : ThreadParam × List Event :=
  match p.instances[index]? with
  | none => (p, [])
  | some inst =>
    match inst.state with
    | .reading =>
      match o.readOutcome with
      | .immediate =>
        (setSlot p index { inst with pending := false, state := .reading },
          [.readIssue inst.signal, .lockAcquire, .callbackInvoke inst.signal, .lockRelease])
      | .moreData =>
        (setSlot p index { inst with pending := false, state := .reading },
          [.readIssue inst.signal, .lockAcquire, .callbackInvoke inst.signal, .lockRelease])
      | .ioPending =>
        (setSlot p index { inst with pending := true }, [.readIssue inst.signal])
      | .failed =>
        let r := removePipe p index
        (r.1, .readIssue inst.signal :: r.2)
    | .sending =>
      (setSlot p index { inst with pending := false, state := .reading },
        [.lockAcquire, .callbackInvoke inst.signal, .lockRelease])
    | .connecting => (p, [])

/-- One iteration of the multiplexer `while` body of the pool-variant
`receiver::thread` (after the stop-event check): wait for a ready slot; if
the reported index is out of range, `continue`.  If the ready slot has an
operation `pending`, consume its completion: a completed `connecting` slot
turns `reading` and a fresh slot is opened via `add_pipe` (failure ignored);
a completed read turns `sending` unless it failed without `ERROR_MORE_DATA`
(in which case the state is left `reading`); a `sending` (or unknown) state
with `pending` runs `remove_pipe` and `continue`s.  Then the slot is
serviced by the second switch. -/
def dispatchPass (p : ThreadParam) (o : PassOracle) : ThreadParam × List Event :=
  match o.signaledIndex with
  | none => (p, [])
  | some index =>
    match p.instances[index]? with
    | none => (p, [])
    | some inst =>
      if inst.pending then
        match inst.state with
        | .connecting =>
          let p1 := setSlot p index { inst with state := .reading }
          let a := addPipe p1 o.createOk
          let s := serviceSlot a.1 index o
          (s.1, a.2.1 ++ s.2)
        | .reading =>
          if o.ovSuccess || o.ovMoreData then
            serviceSlot (setSlot p index { inst with state := .sending }) index o
          else
            serviceSlot p index o
        | .sending =>
          removePipe p index
      else
        serviceSlot p index o

/-- Run a sequence of multiplexer passes, concatenating the emitted events. -/
def runPasses (p : ThreadParam) (os : List PassOracle) : ThreadParam × List Event :=
  match os with
  | [] => (p, [])
  | o :: rest =>
    let d := dispatchPass p o
    let r := runPasses d.1 rest
    (r.1, d.2 ++ r.2)

/-- One iteration of the outer loop: the observed state of the stop event at
the `WaitForSingleObject(stop_event, 0)` check, and the oracle for the
dispatch pass run if the stop event is not yet signaled. -/
structure LoopStep where
  stopSignaled : Bool
  oracle : PassOracle
  deriving Repr, DecidableEq

/-- The worker loop of the pool-variant `receiver::thread`: each iteration
first polls the stop event; once it is observed signaled the loop exits and
`clear_pipes` runs.  Returns the final state, the number of dispatch passes
executed, and the event trace; returns `none` when the supplied schedule
ends before the stop event was observed (the loop is still running). -/
def workerLoop (p : ThreadParam) (steps : List LoopStep) :
    Option (ThreadParam × Nat × List Event) :=
  match steps with
  | [] => none
  | s :: rest =>
    if s.stopSignaled then
      let c := clearPipes p
      some (c.1, 0, c.2)
    else
      let d := dispatchPass p s.oracle
      match workerLoop d.1 rest with
      | none => none
      | some (pFinal, n, evs) => some (pFinal, n + 1, d.2 ++ evs)

/-- Model of `receiver::set_callback`: on a default-constructed receiver
(`m_param` null) it returns immediately; otherwise it stores the new callback
under the callback mutex. -/
def setCallback (param : Option ThreadParam) (cb : Nat) :
    Option ThreadParam × List Event :=
  match param with
  | none => (none, [])
  | some p => (some { p with callback := cb }, [.lockAcquire, .callbackStore, .lockRelease])

/-- The pool state built by the pool-variant receiver constructor: an empty
pool to which `add_pipe` is applied once (its result is ignored by the
constructor). -/
def receiverInit (cb : Nat) (createOk : Bool) : ThreadParam :=
  (addPipe { instances := [], events := [], nextHandle := 0, callback := cb } createOk).1

/-- Number of slots currently in `connecting` state. -/
def connectingCount (p : ThreadParam) : Nat :=
  p.instances.countP (fun inst => inst.state == .connecting)

/-- Wait-set alignment invariant: the event list registered with
`WaitForMultipleObjects` is exactly the list of per-slot completion-signal
handles, position by position. -/
def aligned (p : ThreadParam) : Prop :=
  p.events = p.instances.map Instance.signal

/-- Tags of the per-slot subtrace relevant to delivery ordering: a read
issued on the slot, or a callback invocation for the slot. -/
inductive Tag where
  | r
  | c
  deriving Repr, DecidableEq

/-- Restrict an event trace to the read/callback tags of slot `s`. -/
def tagsOf (s : Nat) : List Event → List Tag
  | [] => []
  | .readIssue s' :: t => if s' = s then .r :: tagsOf s t else tagsOf s t
  | .callbackInvoke s' :: t => if s' = s then .c :: tagsOf s t else tagsOf s t
  | _ :: t => tagsOf s t

/-- Whether a read has been issued since the last delivery, after processing
the tag list starting from armed-state `a`. -/
def armAfter : Bool → List Tag → Bool
  | a, [] => a
  | _, .r :: t => armAfter true t
  | _, .c :: t => armAfter false t

/-- Check that starting from armed-state `a`, every delivery tag is preceded
by a read tag issued since the previous delivery tag. -/
def sepArm : Bool → List Tag → Bool
  | _, [] => true
  | _, .r :: t => sepArm true t
  | a, .c :: t => a && sepArm false t

/-- Deliveries on one slot are separated by reads: before the first delivery
a read was issued, and between any two deliveries another read was issued. -/
def readSeparated (l : List Tag) : Bool := sepArm false l

/-- Per-slot well-formedness used in the worker-loop inductions: the slot's
completion signal is below the fresh-handle counter, the transient `sending`
state never persists between passes, and a slot with an outstanding read has
a read tag as the most recent tag of its subtrace (`A` maps each signal to
the armed-state of its subtrace so far). -/
def instOk (nh : Nat) (A : Nat → Bool) (inst : Instance) : Prop :=
  inst.signal < nh ∧ inst.state ≠ .sending ∧
    (inst.state = .reading → inst.pending = true → A inst.signal = true)

/-- Invariant tying the pool state to the trace emitted so far: every slot is
well formed and slot signals are pairwise distinct. -/
def GoodTrace (p : ThreadParam) (A : Nat → Bool) : Prop :=
  (∀ inst ∈ p.instances, instOk p.nextHandle A inst) ∧
  (p.instances.map Instance.signal).Nodup

/-- Lock state after processing a trace, starting from `held`. -/
def heldAfter : Bool → List Event → Bool
  | held, [] => held
  | _, .lockAcquire :: t => heldAfter true t
  | _, .lockRelease :: t => heldAfter false t
  | held, _ :: t => heldAfter held t

/-- Check that every callback invocation and every callback replacement in
the trace happens while the callback mutex is held. -/
def lockGuarded : Bool → List Event → Bool
  | _, [] => true
  | _, .lockAcquire :: t => lockGuarded true t
  | _, .lockRelease :: t => lockGuarded false t
  | held, .callbackInvoke _ :: t => held && lockGuarded held t
  | held, .callbackStore :: t => held && lockGuarded held t
  | held, _ :: t => lockGuarded held t

end Pool

/-! Theorems. -/

open Current Legacy Pool

/-- C1: when a read completes with the more-data indication after reading
`bytes_read` bytes of a message, the staging buffer is grown to exactly
`bytes_read` plus the remaining byte count, the already-read prefix is
preserved at its positions by the growth, the synchronous follow-up read
appends the remainder at offset `bytes_read`, and the callback fires exactly
once with the accumulated total — so for every message larger than the
staging buffer the delivered bytes and length equal the message sent. -/
theorem receiver_more_data_growth_delivers_message (buffer msg : List Nat)
    (h : buffer.length < msg.length) :
    (Current.threadReadIteration buffer msg).buffer = msg ∧
    (Current.threadReadIteration buffer msg).buffer.length
      = buffer.length + (msg.length - buffer.length) ∧
    (Current.listResize (Current.writeAt buffer 0 (msg.take buffer.length))
        (buffer.length + (msg.length - buffer.length))).take buffer.length
      = msg.take buffer.length ∧
    (Current.threadReadIteration buffer msg).deliveredData = msg ∧
    (Current.threadReadIteration buffer msg).deliveredLen = msg.length ∧
    (Current.threadReadIteration buffer msg).callbackCount = 1 := by
  have hb : (msg.take buffer.length).length = buffer.length := by
    simp [List.length_take]
    omega
  have hbuf1 : Current.writeAt buffer 0 (msg.take buffer.length) = msg.take buffer.length := by
    simp [Current.writeAt, hb, List.drop_length]
  have hsum : buffer.length + (msg.length - buffer.length) = msg.length := by omega
  have hbuf2 : Current.listResize (Current.writeAt buffer 0 (msg.take buffer.length))
      msg.length
      = msg.take buffer.length ++ List.replicate (msg.length - buffer.length) 0 := by
    rw [hbuf1, Current.listResize, hb, List.take_of_length_le (by rw [hb]; omega)]
  have hlen2 : (msg.take buffer.length ++ List.replicate (msg.length - buffer.length) 0).length
      = msg.length := by
    simp [hb]
    omega
  have hdroptail : (msg.drop buffer.length).length = msg.length - buffer.length := by
    simp
  have htake : (msg.take buffer.length ++ List.replicate (msg.length - buffer.length) 0).take
      buffer.length = msg.take buffer.length := by
    rw [List.take_append_of_le_length (le_of_eq hb.symm), List.take_take]
    simp
  have hdropnil : (msg.take buffer.length ++ List.replicate (msg.length - buffer.length) 0).drop
      msg.length = [] := by
    exact List.drop_eq_nil_of_le (le_of_eq hlen2)
  have hbuf3 : Current.writeAt
      (msg.take buffer.length ++ List.replicate (msg.length - buffer.length) 0)
      buffer.length ((msg.drop buffer.length).take (msg.length - buffer.length)) = msg := by
    rw [Current.writeAt, List.take_of_length_le (le_of_eq hdroptail), hdroptail, hsum,
      htake, hdropnil]
    rw [List.append_nil, List.take_append_drop]
  have hite : ¬ msg.length ≤ buffer.length := by omega
  have hmain : Current.threadReadIteration buffer msg =
      { buffer := msg
        deliveredData := msg
        deliveredLen := msg.length
        callbackCount := 1 } := by
    simp only [Current.threadReadIteration, hite, if_false, hsum, hbuf2, hbuf3,
      List.take_length]
  refine ⟨?_, ?_, ?_, ?_, ?_, ?_⟩
  · rw [hmain]
  · rw [hmain]
    exact hsum.symm
  · rw [hsum, hbuf2]
    exact htake
  · rw [hmain]
  · rw [hmain]
  · rw [hmain]

/-- C1 witness: a 2-byte staging buffer receiving a 5-byte message delivers
exactly the 5 message bytes. -/
theorem receiver_more_data_growth_delivers_message_witness :
    (Current.threadReadIteration [0, 0] [1, 2, 3, 4, 5]).deliveredData = [1, 2, 3, 4, 5] :=
  (receiver_more_data_growth_delivers_message [0, 0] [1, 2, 3, 4, 5] (by decide)).2.2.2.1

/-- C2: `sender::send` flushes and returns true when the initial write
succeeds; on an initial failure with the invalid-handle or not-connected
error class it reconnects exactly once and retries exactly once, returning
true after a flush when the retry succeeds and false when it fails; on any
other initial error it returns false with no reconnect and no retry; in all
cases the outcome is a boolean result. -/
theorem sender_send_reconnect_contract (fw rw : Current.WriteResult) :
    (fw = .success →
      Current.send fw rw
        = { result := true, reconnects := 0, writeAttempts := 1, flushes := 1 }) ∧
    (∀ e, fw = .failure e →
      (e = Current.ERROR_INVALID_HANDLE ∨ e = Current.ERROR_PIPE_NOT_CONNECTED) →
      (rw = .success →
        Current.send fw rw
          = { result := true, reconnects := 1, writeAttempts := 2, flushes := 1 }) ∧
      (∀ e2, rw = .failure e2 →
        Current.send fw rw
          = { result := false, reconnects := 1, writeAttempts := 2, flushes := 0 })) ∧
    (∀ e, fw = .failure e →
      ¬ (e = Current.ERROR_INVALID_HANDLE ∨ e = Current.ERROR_PIPE_NOT_CONNECTED) →
      Current.send fw rw
        = { result := false, reconnects := 0, writeAttempts := 1, flushes := 0 }) := by
  refine ⟨?_, ?_, ?_⟩
  · rintro rfl
    rfl
  · rintro e rfl he
    refine ⟨?_, ?_⟩
    · rintro rfl
      simp [Current.send, he]
    · rintro e2 rfl
      simp [Current.send, he]
  · rintro e rfl he
    simp [Current.send, he]

/-- C2 witness: an initial not-connected failure followed by a successful
retry yields success with one reconnect, two write attempts and a flush. -/
theorem sender_send_reconnect_contract_witness :
    Current.send (.failure 233) .success
      = { result := true, reconnects := 1, writeAttempts := 2, flushes := 1 } :=
  ((sender_send_reconnect_contract (.failure 233) .success).2.1 233 rfl
    (Or.inr rfl)).1 rfl

/-- C3: when creation of the named pipe endpoint fails, the receiver
constructor raises an error and the worker thread is never started; the
worker is started exactly when endpoint creation succeeded. -/
theorem receiver_ctor_failure_raises_no_thread (pipeValid : Bool) (errCode : Nat) :
    (pipeValid = false →
      Current.receiverCtor pipeValid errCode
        = .error ("Pipe creation failed: " ++ toString errCode)) ∧
    (pipeValid = true →
      Current.receiverCtor pipeValid errCode = .ok { threadStarted := true }) ∧
    (∀ r, Current.receiverCtor pipeValid errCode = .ok r →
      r.threadStarted = true ∧ pipeValid = true) := by
  cases pipeValid with
  | false =>
    refine ⟨fun _ => rfl, by simp, ?_⟩
    intro r hr
    simp [Current.receiverCtor] at hr
  | true =>
    refine ⟨by simp, fun _ => rfl, ?_⟩
    intro r hr
    simp [Current.receiverCtor] at hr
    exact ⟨by rw [← hr], rfl⟩

/-- C3 witness: with a failed pipe creation reporting error 5, construction
yields the raised error. -/
theorem receiver_ctor_failure_raises_no_thread_witness :
    Current.receiverCtor false 5 = .error ("Pipe creation failed: " ++ toString 5) :=
  (receiver_ctor_failure_raises_no_thread false 5).1 rfl

/-- C5 counterexample: the pool-variant rounding maps the hint 0 to an
effective staging size of 0, which is below the 1024 minimum the claim
asserts, refuting the claim as stated. -/
theorem buffer_size_hint_zero_counterexample :
    Current.effectiveBufferSize 0 = 0 ∧ ¬ (1024 ≤ Current.effectiveBufferSize 0) := by
  constructor
  · rfl
  · decide

/-- C5 amended: for every nonzero hint that does not overflow the `DWORD`
rounding (hint at most 2^32 - 1024), the pool-variant effective size is at
least 1024, at least the hint, and 1024-aligned — the hint is only rounded
up; and the legacy variant `max(hint, MIN_BUFFER_SIZE)` satisfies the floor
property for every hint. -/
theorem buffer_size_hint_rounded_up (h : Nat) (h1 : 1 ≤ h)
    (h2 : h ≤ Current.dwordMod - 1024) :
    (1024 ≤ Current.effectiveBufferSize h ∧ h ≤ Current.effectiveBufferSize h ∧
      Current.effectiveBufferSize h % 1024 = 0) ∧
    (∀ g, 1024 ≤ Legacy.effectiveBufferSize g ∧ g ≤ Legacy.effectiveBufferSize g) := by
  constructor
  · simp only [Current.effectiveBufferSize, Current.dwordMod] at h2 ⊢
    by_cases h0 : h % 1024 = 0
    · rw [if_pos h0]
      omega
    · rw [if_neg h0]
      omega
  · intro g
    simp only [Legacy.effectiveBufferSize, Legacy.MIN_BUFFER_SIZE]
    omega

/-- Helper: looking up the middle element of a split list. -/
theorem list_middle_getElem {α : Type _} (A B : List α) (x : α) :
    (A ++ x :: B)[A.length]? = some x := by
  induction A with
  | nil => simp
  | cons a t ih => simpa using ih

/-- Helper: replacing the middle element of a split list. -/
theorem list_middle_set {α : Type _} (A B : List α) (x y : α) :
    (A ++ x :: B).set A.length y = A ++ y :: B := by
  induction A with
  | nil => rfl
  | cons a t ih => simp [ih]

/-- Helper: erasing the middle element of a split list. -/
theorem list_middle_eraseIdx {α : Type _} (A B : List α) (x : α) :
    (A ++ x :: B).eraseIdx A.length = A ++ B := by
  induction A with
  | nil => rfl
  | cons a t ih => simpa using ih

/-- Helper: `eraseIdx` commutes with `map`. -/
theorem list_map_eraseIdx {α β : Type _} (f : α → β) (l : List α) (i : Nat) :
    (l.map f).eraseIdx i = (l.eraseIdx i).map f := by
  rw [List.eraseIdx_eq_take_drop_succ, List.eraseIdx_eq_take_drop_succ, List.map_append,
    List.map_take, List.map_drop]

/-- C8: the pool operations `add_pipe`, `remove_pipe` and `clear_pipes`
preserve the wait-set alignment: the multiplexer event list and the instance
list have equal length and agree position by position, the event at `i`
being exactly the completion signal of the instance at `i`; a slot's signal
is registered exactly while the slot is in the pool. -/
theorem pool_ops_preserve_wait_set_alignment (p : Pool.ThreadParam)
    (createOk : Bool) (index : Nat) (h : Pool.aligned p) :
    Pool.aligned (Pool.addPipe p createOk).1 ∧
    Pool.aligned (Pool.removePipe p index).1 ∧
    Pool.aligned (Pool.clearPipes p).1 ∧
    p.events.length = p.instances.length ∧
    (∀ i : Nat, p.events[i]? = (p.instances[i]?).map Pool.Instance.signal) := by
  refine ⟨?_, ?_, ?_, ?_, ?_⟩
  · cases createOk <;> simp [Pool.addPipe, Pool.aligned, h] <;> exact h
  · rcases hi : p.instances[index]? with _ | inst
    · simpa [Pool.removePipe, hi] using h
    · simp only [Pool.removePipe, hi]
      show p.events.eraseIdx index = _
      rw [Pool.aligned] at h
      rw [h, list_map_eraseIdx]
  · simp [Pool.clearPipes, Pool.aligned]
  · rw [Pool.aligned] at h
    rw [h, List.length_map]
  · intro i
    rw [Pool.aligned] at h
    rw [h, List.getElem?_map]

/-- C8 witness: alignment holds for the freshly constructed pool and is kept
by adding a further slot. -/
theorem pool_ops_preserve_wait_set_alignment_witness :
    Pool.aligned (Pool.addPipe (Pool.receiverInit 0 true) true).1 :=
  (pool_ops_preserve_wait_set_alignment (Pool.receiverInit 0 true) true 0
    (by simp [Pool.aligned, Pool.receiverInit, Pool.addPipe])).1

/-- C10: calling `set_callback` on a default-constructed receiver (null
thread-parameter state) returns without modifying anything: the state stays
`none` and no lock or store event is emitted; the stored callback is updated
exactly when the receiver holds a constructed thread-parameter state. -/
theorem set_callback_default_receiver_noop (cb : Nat) (q : Pool.ThreadParam) :
    Pool.setCallback none cb = (none, []) ∧
    (Pool.setCallback (some q) cb).1 = some { q with callback := cb } :=
  ⟨rfl, rfl⟩

/-- Helper: lock state threads through concatenation. -/
theorem heldAfter_append (a : Bool) (l m : List Pool.Event) :
    Pool.heldAfter a (l ++ m) = Pool.heldAfter (Pool.heldAfter a l) m := by
  induction l generalizing a with
  | nil => rfl
  | cons e t ih => cases e <;> simp [Pool.heldAfter, ih]

/-- Helper: lock-guardedness splits over concatenation. -/
theorem lockGuarded_append (a : Bool) (l m : List Pool.Event) :
    Pool.lockGuarded a (l ++ m)
      = (Pool.lockGuarded a l && Pool.lockGuarded (Pool.heldAfter a l) m) := by
  induction l generalizing a with
  | nil => simp [Pool.lockGuarded, Pool.heldAfter]
  | cons e t ih => cases e <;> simp [Pool.lockGuarded, Pool.heldAfter, ih, Bool.and_assoc]

/-- Helper: `remove_pipe` emits no callback or lock events. -/
theorem removePipe_lockGuarded (p : Pool.ThreadParam) (index : Nat) (a : Bool) :
    Pool.lockGuarded a (Pool.removePipe p index).2 = true ∧
    Pool.heldAfter a (Pool.removePipe p index).2 = a := by
  rcases hi : p.instances[index]? with _ | inst <;>
    simp [Pool.removePipe, hi, Pool.deleteInstanceEvents, Pool.lockGuarded, Pool.heldAfter]

/-- Helper: the service switch invokes the callback only inside the
acquire/release bracket, and leaves the mutex released. -/
theorem serviceSlot_lockGuarded (p : Pool.ThreadParam) (index : Nat) (o : Pool.PassOracle) :
    Pool.lockGuarded false (Pool.serviceSlot p index o).2 = true ∧
    Pool.heldAfter false (Pool.serviceSlot p index o).2 = false := by
  rcases hi : p.instances[index]? with _ | inst
  · simp [Pool.serviceSlot, hi, Pool.lockGuarded, Pool.heldAfter]
  cases hst : inst.state
  · simp [Pool.serviceSlot, hi, hst, Pool.lockGuarded, Pool.heldAfter]
  · cases hro : o.readOutcome
    · simp [Pool.serviceSlot, hi, hst, hro, Pool.lockGuarded, Pool.heldAfter]
    · simp [Pool.serviceSlot, hi, hst, hro, Pool.lockGuarded, Pool.heldAfter]
    · simp [Pool.serviceSlot, hi, hst, hro, Pool.lockGuarded, Pool.heldAfter]
    · have hr := removePipe_lockGuarded p index false
      simp [Pool.serviceSlot, hi, hst, hro, Pool.lockGuarded, Pool.heldAfter, hr.1, hr.2]
  · simp [Pool.serviceSlot, hi, hst, Pool.lockGuarded, Pool.heldAfter]

/-- Helper: one dispatch pass invokes the callback only under the mutex and
leaves the mutex released. -/
theorem dispatchPass_lockGuarded (p : Pool.ThreadParam) (o : Pool.PassOracle) :
    Pool.lockGuarded false (Pool.dispatchPass p o).2 = true ∧
    Pool.heldAfter false (Pool.dispatchPass p o).2 = false := by
  rcases ho : o.signaledIndex with _ | index
  · simp [Pool.dispatchPass, ho, Pool.lockGuarded, Pool.heldAfter]
  rcases hi : p.instances[index]? with _ | inst
  · simp [Pool.dispatchPass, ho, hi, Pool.lockGuarded, Pool.heldAfter]
  by_cases hp : inst.pending
  · cases hst : inst.state
    · have hs := serviceSlot_lockGuarded
        (Pool.addPipe (Pool.setSlot p index
          { signal := inst.signal, state := .reading, pending := true }) o.createOk).1
        index o
      have ha : Pool.lockGuarded false
          (Pool.addPipe (Pool.setSlot p index
            { signal := inst.signal, state := .reading, pending := true }) o.createOk).2.1
          = true ∧
          Pool.heldAfter false
          (Pool.addPipe (Pool.setSlot p index
            { signal := inst.signal, state := .reading, pending := true }) o.createOk).2.1
          = false := by
        cases o.createOk <;> simp [Pool.addPipe, Pool.lockGuarded, Pool.heldAfter]
      simp only [Pool.dispatchPass, ho, hi, hp, if_true, hst]
      rw [lockGuarded_append, heldAfter_append, ha.1, ha.2, hs.1, hs.2]
      exact ⟨rfl, rfl⟩
    · by_cases hov : o.ovSuccess || o.ovMoreData <;>
        simp only [Pool.dispatchPass, ho, hi, hp, if_true, hst, hov, if_false] <;>
        exact serviceSlot_lockGuarded _ index o
    · simp only [Pool.dispatchPass, ho, hi, hp, if_true, hst]
      exact removePipe_lockGuarded p index false
  · simp only [Pool.dispatchPass, ho, hi, hp, if_false]
    exact serviceSlot_lockGuarded p index o

/-- Helper: the whole multiplexer run invokes callbacks only under the
mutex. -/
theorem runPasses_lockGuarded (os : List Pool.PassOracle) : ∀ p : Pool.ThreadParam,
    Pool.lockGuarded false (Pool.runPasses p os).2 = true := by
  induction os with
  | nil => intro p; rfl
  | cons o rest ih =>
    intro p
    simp only [Pool.runPasses]
    rw [lockGuarded_append]
    have h := dispatchPass_lockGuarded p o
    rw [h.1, h.2, ih]
    rfl

/-- C6: every callback invocation by the worker happens while the callback
mutex is held (the emitted trace acquires the lock, invokes, releases), and
`set_callback` likewise stores the new callback strictly between acquiring
and releasing the same mutex — so delivery and callback replacement are
serialized by that mutex. -/
theorem callback_delivery_serialized_with_set_callback (p : Pool.ThreadParam)
    (os : List Pool.PassOracle) (pm : Option Pool.ThreadParam) (cb : Nat) :
    Pool.lockGuarded false (Pool.runPasses p os).2 = true ∧
    Pool.lockGuarded false (Pool.setCallback pm cb).2 = true ∧
    (∀ q : Pool.ThreadParam, (Pool.setCallback (some q) cb).2
      = [Pool.Event.lockAcquire, Pool.Event.callbackStore, Pool.Event.lockRelease]) := by
  refine ⟨runPasses_lockGuarded os p, ?_, fun q => rfl⟩
  cases pm <;> simp [Pool.setCallback, Pool.lockGuarded]

/-- Helper: `clear_pipes` empties both pool collections. -/
theorem clearPipes_empties (p : Pool.ThreadParam) :
    (Pool.clearPipes p).1.instances = [] ∧ (Pool.clearPipes p).1.events = [] :=
  ⟨rfl, rfl⟩

/-- Helper: `clear_pipes` emits the disconnect, signal-close and pipe-close
events of every slot in the pool. -/
theorem clearPipes_teardown (p : Pool.ThreadParam) (inst : Pool.Instance)
    (h : inst ∈ p.instances) :
    Pool.Event.disconnectPipe inst.signal ∈ (Pool.clearPipes p).2 ∧
    Pool.Event.closeSignal inst.signal ∈ (Pool.clearPipes p).2 ∧
    Pool.Event.closePipe inst.signal ∈ (Pool.clearPipes p).2 := by
  refine ⟨?_, ?_, ?_⟩ <;>
    · show _ ∈ (p.instances.map Pool.deleteInstanceEvents).flatten
      rw [List.mem_flatten]
      exact ⟨Pool.deleteInstanceEvents inst, List.mem_map_of_mem _ h,
        by simp [Pool.deleteInstanceEvents]⟩

/-- C7: once the stop event is observed signaled (first at step `k`), the
worker loop performs no further dispatch pass (exactly the `k` passes before
the signal), runs `clear_pipes` and exits: the final pool has empty instance
and event collections, and the trace records the disconnect, completion-signal
release and endpoint close of every slot present at exit. -/
theorem shutdown_stops_loop_and_tears_down (p : Pool.ThreadParam)
    (steps : List Pool.LoopStep) (k : Nat) (s : Pool.LoopStep)
    (hk : steps[k]? = some s) (hs : s.stopSignaled = true)
    (hbefore : ∀ j, j < k → ∀ s', steps[j]? = some s' → s'.stopSignaled = false) :
    ∃ q evs,
      Pool.workerLoop p steps = some ((Pool.clearPipes q).1, k, evs ++ (Pool.clearPipes q).2) ∧
      (Pool.clearPipes q).1.instances = [] ∧
      (Pool.clearPipes q).1.events = [] ∧
      ∀ inst ∈ q.instances,
        Pool.Event.disconnectPipe inst.signal ∈ (Pool.clearPipes q).2 ∧
        Pool.Event.closeSignal inst.signal ∈ (Pool.clearPipes q).2 ∧
        Pool.Event.closePipe inst.signal ∈ (Pool.clearPipes q).2 := by
  induction steps generalizing p k with
  | nil => simp at hk
  | cons st rest ih =>
    cases k with
    | zero =>
      rw [List.getElem?_cons_zero] at hk
      injection hk with hk
      subst hk
      refine ⟨p, [], ?_, (clearPipes_empties p).1, (clearPipes_empties p).2,
        fun inst hmem => clearPipes_teardown p inst hmem⟩
      simp [Pool.workerLoop, hs]
    | succ j =>
      have hst0 : st.stopSignaled = false :=
        hbefore 0 (Nat.succ_pos j) st List.getElem?_cons_zero
      rw [List.getElem?_cons_succ] at hk
      obtain ⟨q, evs, hrun, hinst, hev, htear⟩ :=
        ih (Pool.dispatchPass p st.oracle).1 j hk
          (fun i hi s' h' => hbefore (i + 1) (Nat.succ_lt_succ hi) s'
            (by rw [List.getElem?_cons_succ]; exact h'))
      refine ⟨q, (Pool.dispatchPass p st.oracle).2 ++ evs, ?_, hinst, hev, htear⟩
      simp only [Pool.workerLoop, hst0, Bool.false_eq_true, if_false, hrun,
        List.append_assoc]

/-- C7 witness: with the stop event signaled at the second poll, the loop
runs exactly one dispatch pass, exits, and leaves an empty pool. -/
theorem shutdown_stops_loop_and_tears_down_witness :
    ∃ q evs,
      Pool.workerLoop (Pool.receiverInit 0 true)
        [{ stopSignaled := false,
           oracle := { signaledIndex := none, ovSuccess := false, ovMoreData := false,
                       createOk := true, readOutcome := .ioPending } },
         { stopSignaled := true,
           oracle := { signaledIndex := none, ovSuccess := false, ovMoreData := false,
                       createOk := true, readOutcome := .ioPending } }]
        = some ((Pool.clearPipes q).1, 1, evs ++ (Pool.clearPipes q).2) ∧
      (Pool.clearPipes q).1.instances = [] ∧
      (Pool.clearPipes q).1.events = [] ∧
      ∀ inst ∈ q.instances,
        Pool.Event.disconnectPipe inst.signal ∈ (Pool.clearPipes q).2 ∧
        Pool.Event.closeSignal inst.signal ∈ (Pool.clearPipes q).2 ∧
        Pool.Event.closePipe inst.signal ∈ (Pool.clearPipes q).2 := by
  refine shutdown_stops_loop_and_tears_down (Pool.receiverInit 0 true) _ 1 _ rfl rfl ?_
  intro j hj s' h'
  have hj0 : j = 0 := by omega
  subst hj0
  rw [List.getElem?_cons_zero] at h'
  injection h' with h'
  rw [← h']

/-- C5 witness: hint 1 is rounded up to 1024 in the pool variant, and the
legacy variant maps hint 1 to 1024 as well. -/
theorem buffer_size_hint_rounded_up_witness :
    1024 ≤ Current.effectiveBufferSize 1 ∧ 1 ≤ Current.effectiveBufferSize 1 ∧
      1024 ≤ Legacy.effectiveBufferSize 1 :=
  ⟨(buffer_size_hint_rounded_up 1 (by decide) (by norm_num [Current.dwordMod])).1.1,
    (buffer_size_hint_rounded_up 1 (by decide) (by norm_num [Current.dwordMod])).1.2.1,
    ((buffer_size_hint_rounded_up 1 (by decide) (by norm_num [Current.dwordMod])).2 1).1⟩

/-- Helper: per-slot tag extraction distributes over concatenation. -/
theorem tagsOf_append (s : Nat) (l m : List Pool.Event) :
    Pool.tagsOf s (l ++ m) = Pool.tagsOf s l ++ Pool.tagsOf s m := by
  induction l with
  | nil => rfl
  | cons e t ih =>
    cases e with
    | readIssue g => by_cases hg : g = s <;> simp [Pool.tagsOf, hg, ih]
    | callbackInvoke g => by_cases hg : g = s <;> simp [Pool.tagsOf, hg, ih]
    | lockAcquire => simpa [Pool.tagsOf] using ih
    | lockRelease => simpa [Pool.tagsOf] using ih
    | callbackStore => simpa [Pool.tagsOf] using ih
    | addSlot g => simpa [Pool.tagsOf] using ih
    | disconnectPipe g => simpa [Pool.tagsOf] using ih
    | closeSignal g => simpa [Pool.tagsOf] using ih
    | closePipe g => simpa [Pool.tagsOf] using ih

/-- Helper: armed state threads through concatenation. -/
theorem armAfter_append (a : Bool) (l m : List Pool.Tag) :
    Pool.armAfter a (l ++ m) = Pool.armAfter (Pool.armAfter a l) m := by
  induction l generalizing a with
  | nil => rfl
  | cons t ts ih => cases t <;> simp [Pool.armAfter, List.append_eq, ih]

/-- Helper: read-separation splits over concatenation. -/
theorem sepArm_append (a : Bool) (l m : List Pool.Tag) :
    Pool.sepArm a (l ++ m)
      = (Pool.sepArm a l && Pool.sepArm (Pool.armAfter a l) m) := by
  induction l generalizing a with
  | nil => simp [Pool.sepArm, Pool.armAfter]
  | cons t ts ih =>
    cases t <;> simp [Pool.sepArm, Pool.armAfter, List.append_eq, ih, Bool.and_assoc]

/-- Helper: teardown events carry no read or callback tags. -/
theorem tagsOf_deleteInstanceEvents (s : Nat) (inst : Pool.Instance) :
    Pool.tagsOf s (Pool.deleteInstanceEvents inst) = [] := by
  simp [Pool.deleteInstanceEvents, Pool.tagsOf]

/-- Helper: per-slot well-formedness is monotone in the handle bound and
depends on the armed map only at the slot's own signal. -/
theorem instOk_mono (nh nh2 : Nat) (A A2 : Nat → Bool) (inst : Pool.Instance)
    (h : Pool.instOk nh A inst) (hnh : nh ≤ nh2)
    (hA : A2 inst.signal = A inst.signal) :
    Pool.instOk nh2 A2 inst :=
  ⟨lt_of_lt_of_le h.1 hnh, h.2.1, fun h1 h2 => by rw [hA]; exact h.2.2 h1 h2⟩

/-- Helper: the invariant respects pointwise-equal armed maps. -/
theorem goodTrace_congr (p : Pool.ThreadParam) (A B : Nat → Bool)
    (h : ∀ t, A t = B t) (hG : Pool.GoodTrace p B) : Pool.GoodTrace p A := by
  refine ⟨fun x hx => ?_, hG.2⟩
  have hx2 := hG.1 x hx
  exact ⟨hx2.1, hx2.2.1, fun h1 h2 => by rw [h x.signal]; exact hx2.2.2 h1 h2⟩

/-- Helper: rebuilding the pool around the dispatched slot (signal `sig`)
from well-formed surroundings `A0`, `B0` and an at-most-one-slot replacement
`MID` carrying the same signal yields a well-formed pool with distinct
signals. -/
theorem ok_nodup_glue (A0 B0 MID : List Pool.Instance) (sig nh : Nat)
    (A2 : Nat → Bool)
    (hA : ∀ y ∈ A0, Pool.instOk nh A2 y) (hAs : ∀ y ∈ A0, y.signal ≠ sig)
    (hB : ∀ y ∈ B0, Pool.instOk nh A2 y) (hBs : ∀ y ∈ B0, y.signal ≠ sig)
    (hndA : (A0.map Pool.Instance.signal).Nodup)
    (hndB : (B0.map Pool.Instance.signal).Nodup)
    (hdisj : ∀ t ∈ A0.map Pool.Instance.signal, t ∉ B0.map Pool.Instance.signal)
    (hM : ∀ y ∈ MID, Pool.instOk nh A2 y) (hMs : ∀ y ∈ MID, y.signal = sig)
    (hMlen : MID.length ≤ 1) :
    (∀ y ∈ A0 ++ (MID ++ B0), Pool.instOk nh A2 y) ∧
    ((A0 ++ (MID ++ B0)).map Pool.Instance.signal).Nodup := by
  constructor
  · intro y hy
    rcases List.mem_append.mp hy with hy | hy
    · exact hA y hy
    rcases List.mem_append.mp hy with hy | hy
    · exact hM y hy
    · exact hB y hy
  · have hndM : (MID.map Pool.Instance.signal).Nodup := by
      match MID, hMlen with
      | [], _ => simp
      | [x], _ => simp
    simp only [List.map_append, List.nodup_append]
    refine ⟨hndA, ⟨hndM, hndB, ?_⟩, ?_⟩
    · intro t htM htB
      obtain ⟨y, hyM, hysig⟩ := List.mem_map.mp htM
      obtain ⟨z, hzB, hzsig⟩ := List.mem_map.mp htB
      exact hBs z hzB (by rw [hzsig, ← hysig, hMs y hyM])
    · intro t htA htMB
      obtain ⟨y, hyA, hysig⟩ := List.mem_map.mp htA
      rcases List.mem_append.mp htMB with ht | ht
      · obtain ⟨z, hzM, hzsig⟩ := List.mem_map.mp ht
        exact hAs y hyA (by rw [hysig, ← hzsig, hMs z hzM])
      · exact hdisj t htA ht

/-- Helper: servicing a slot in `reading` state (the second switch of the
worker body: issue `ReadFile`, possibly deliver or remove) preserves the
pool/trace invariant, and the tag subtrace it emits is read-separated for
every slot. -/
theorem serviceSlot_reading_good (q : Pool.ThreadParam) (index : Nat)
    (A0 B0 : List Pool.Instance) (x : Pool.Instance) (o : Pool.PassOracle)
    (A : Nat → Bool)
    (hq : q.instances = A0 ++ x :: B0) (hlen : A0.length = index)
    (hxstate : x.state = .reading) (hxsig : x.signal < q.nextHandle)
    (hA : ∀ y ∈ A0, Pool.instOk q.nextHandle A y)
    (hAs : ∀ y ∈ A0, y.signal ≠ x.signal)
    (hB : ∀ y ∈ B0, Pool.instOk q.nextHandle A y)
    (hBs : ∀ y ∈ B0, y.signal ≠ x.signal)
    (hndA : (A0.map Pool.Instance.signal).Nodup)
    (hndB : (B0.map Pool.Instance.signal).Nodup)
    (hdisj : ∀ t ∈ A0.map Pool.Instance.signal, t ∉ B0.map Pool.Instance.signal) :
    Pool.GoodTrace (Pool.serviceSlot q index o).1
      (fun s => Pool.armAfter (A s) (Pool.tagsOf s (Pool.serviceSlot q index o).2)) ∧
    (∀ s, Pool.sepArm (A s) (Pool.tagsOf s (Pool.serviceSlot q index o).2) = true) := by
  have hlook : q.instances[index]? = some x := by
    rw [hq, ← hlen]
    exact list_middle_getElem _ _ _
  cases hro : o.readOutcome with
  | immediate =>
    simp only [Pool.serviceSlot, hlook, hxstate, hro]
    set x2 : Pool.Instance :=
      { x with pending := false, state := Pool.PipeState.reading } with hx2
    set evs : List Pool.Event :=
      [Pool.Event.readIssue x.signal, Pool.Event.lockAcquire,
        Pool.Event.callbackInvoke x.signal, Pool.Event.lockRelease] with hevs
    set A2 : Nat → Bool := fun s => Pool.armAfter (A s) (Pool.tagsOf s evs) with hA2def
    have htag : ∀ s, Pool.tagsOf s evs
        = if x.signal = s then [Pool.Tag.r, Pool.Tag.c] else [] := by
      intro s
      rw [hevs]
      by_cases h : x.signal = s <;> simp [Pool.tagsOf, h]
    have hAo : ∀ t, t ≠ x.signal → A2 t = A t := by
      intro t ht
      simp only [hA2def]
      rw [htag t, if_neg (fun h => ht h.symm)]
      rfl
    have hinst : (Pool.setSlot q index x2).instances = A0 ++ x2 :: B0 := by
      show q.instances.set index x2 = _
      rw [hq, ← hlen, list_middle_set]
    have hglue := ok_nodup_glue A0 B0 [x2] x.signal q.nextHandle A2
      (fun y hy => instOk_mono _ _ A A2 y (hA y hy) le_rfl (hAo _ (hAs y hy))) hAs
      (fun y hy => instOk_mono _ _ A A2 y (hB y hy) le_rfl (hAo _ (hBs y hy))) hBs
      hndA hndB hdisj
      (fun y hy => by
        rw [List.mem_singleton] at hy
        subst hy
        exact ⟨hxsig, by simp [hx2], fun h1 h2 => by simp [hx2] at h2⟩)
      (fun y hy => by
        rw [List.mem_singleton] at hy
        subst hy
        rfl)
      (by simp)
    constructor
    · exact ⟨fun y hy => hglue.1 y (by rw [hinst] at hy; exact hy),
        by rw [hinst]; exact hglue.2⟩
    · intro s
      by_cases h : x.signal = s <;> rw [htag s] <;> simp [h, Pool.sepArm]
  | moreData =>
    simp only [Pool.serviceSlot, hlook, hxstate, hro]
    set x2 : Pool.Instance :=
      { x with pending := false, state := Pool.PipeState.reading } with hx2
    set evs : List Pool.Event :=
      [Pool.Event.readIssue x.signal, Pool.Event.lockAcquire,
        Pool.Event.callbackInvoke x.signal, Pool.Event.lockRelease] with hevs
    set A2 : Nat → Bool := fun s => Pool.armAfter (A s) (Pool.tagsOf s evs) with hA2def
    have htag : ∀ s, Pool.tagsOf s evs
        = if x.signal = s then [Pool.Tag.r, Pool.Tag.c] else [] := by
      intro s
      rw [hevs]
      by_cases h : x.signal = s <;> simp [Pool.tagsOf, h]
    have hAo : ∀ t, t ≠ x.signal → A2 t = A t := by
      intro t ht
      simp only [hA2def]
      rw [htag t, if_neg (fun h => ht h.symm)]
      rfl
    have hinst : (Pool.setSlot q index x2).instances = A0 ++ x2 :: B0 := by
      show q.instances.set index x2 = _
      rw [hq, ← hlen, list_middle_set]
    have hglue := ok_nodup_glue A0 B0 [x2] x.signal q.nextHandle A2
      (fun y hy => instOk_mono _ _ A A2 y (hA y hy) le_rfl (hAo _ (hAs y hy))) hAs
      (fun y hy => instOk_mono _ _ A A2 y (hB y hy) le_rfl (hAo _ (hBs y hy))) hBs
      hndA hndB hdisj
      (fun y hy => by
        rw [List.mem_singleton] at hy
        subst hy
        exact ⟨hxsig, by simp [hx2], fun h1 h2 => by simp [hx2] at h2⟩)
      (fun y hy => by
        rw [List.mem_singleton] at hy
        subst hy
        rfl)
      (by simp)
    constructor
    · exact ⟨fun y hy => hglue.1 y (by rw [hinst] at hy; exact hy),
        by rw [hinst]; exact hglue.2⟩
    · intro s
      by_cases h : x.signal = s <;> rw [htag s] <;> simp [h, Pool.sepArm]
  | ioPending =>
    simp only [Pool.serviceSlot, hlook, hxstate, hro]
    set x2 : Pool.Instance :=
      { signal := x.signal, state := Pool.PipeState.reading, pending := true } with hx2
    set evs : List Pool.Event := [Pool.Event.readIssue x.signal] with hevs
    set A2 : Nat → Bool := fun s => Pool.armAfter (A s) (Pool.tagsOf s evs) with hA2def
    have htag : ∀ s, Pool.tagsOf s evs
        = if x.signal = s then [Pool.Tag.r] else [] := by
      intro s
      rw [hevs]
      by_cases h : x.signal = s <;> simp [Pool.tagsOf, h]
    have hAo : ∀ t, t ≠ x.signal → A2 t = A t := by
      intro t ht
      simp only [hA2def]
      rw [htag t, if_neg (fun h => ht h.symm)]
      rfl
    have hAself : A2 x.signal = true := by
      simp only [hA2def]
      rw [htag x.signal, if_pos rfl]
      rfl
    have hinst : (Pool.setSlot q index x2).instances = A0 ++ x2 :: B0 := by
      show q.instances.set index x2 = _
      rw [hq, ← hlen, list_middle_set]
    have hglue := ok_nodup_glue A0 B0 [x2] x.signal q.nextHandle A2
      (fun y hy => instOk_mono _ _ A A2 y (hA y hy) le_rfl (hAo _ (hAs y hy))) hAs
      (fun y hy => instOk_mono _ _ A A2 y (hB y hy) le_rfl (hAo _ (hBs y hy))) hBs
      hndA hndB hdisj
      (fun y hy => by
        rw [List.mem_singleton] at hy
        subst hy
        exact ⟨hxsig, by simp [hx2], fun h1 h2 => hAself⟩)
      (fun y hy => by
        rw [List.mem_singleton] at hy
        subst hy
        rfl)
      (by simp)
    constructor
    · exact ⟨fun y hy => hglue.1 y (by rw [hinst] at hy; exact hy),
        by rw [hinst]; exact hglue.2⟩
    · intro s
      by_cases h : x.signal = s <;> rw [htag s] <;> simp [h, Pool.sepArm]
  | failed =>
    simp only [Pool.serviceSlot, hlook, hxstate, hro, Pool.removePipe]
    set evs : List Pool.Event :=
      Pool.Event.readIssue x.signal :: Pool.deleteInstanceEvents x with hevs
    set A2 : Nat → Bool := fun s => Pool.armAfter (A s) (Pool.tagsOf s evs) with hA2def
    have htag : ∀ s, Pool.tagsOf s evs
        = if x.signal = s then [Pool.Tag.r] else [] := by
      intro s
      rw [hevs]
      by_cases h : x.signal = s <;>
        simp [Pool.tagsOf, h, Pool.deleteInstanceEvents]
    have hAo : ∀ t, t ≠ x.signal → A2 t = A t := by
      intro t ht
      simp only [hA2def]
      rw [htag t, if_neg (fun h => ht h.symm)]
      rfl
    have hinst : q.instances.eraseIdx index = A0 ++ B0 := by
      rw [hq, ← hlen, list_middle_eraseIdx]
    have hglue := ok_nodup_glue A0 B0 [] x.signal q.nextHandle A2
      (fun y hy => instOk_mono _ _ A A2 y (hA y hy) le_rfl (hAo _ (hAs y hy))) hAs
      (fun y hy => instOk_mono _ _ A A2 y (hB y hy) le_rfl (hAo _ (hBs y hy))) hBs
      hndA hndB hdisj
      (fun y hy => by simp at hy) (fun y hy => by simp at hy) (by simp)
    constructor
    · exact ⟨fun y hy => hglue.1 y (by rw [hinst] at hy; exact hy),
        by rw [hinst]; exact hglue.2⟩
    · intro s
      by_cases h : x.signal = s <;> rw [htag s] <;> simp [h, Pool.sepArm]

/-- Helper: one dispatch pass of the multiplexer preserves the pool/trace
invariant, and the tag subtrace it emits is read-separated for every slot,
starting from that slot's current armed state. -/
theorem dispatchPass_goodTrace (p : Pool.ThreadParam) (o : Pool.PassOracle)
    (A : Nat → Bool) (hG : Pool.GoodTrace p A) :
    Pool.GoodTrace (Pool.dispatchPass p o).1
      (fun s => Pool.armAfter (A s) (Pool.tagsOf s (Pool.dispatchPass p o).2)) ∧
    (∀ s, Pool.sepArm (A s) (Pool.tagsOf s (Pool.dispatchPass p o).2) = true) := by
  obtain ⟨hOk, hNd⟩ := hG
  rcases ho : o.signaledIndex with _ | index
  · simp only [Pool.dispatchPass, ho]
    exact ⟨⟨hOk, hNd⟩, fun s => rfl⟩
  rcases hi : p.instances[index]? with _ | inst
  · simp only [Pool.dispatchPass, ho, hi]
    exact ⟨⟨hOk, hNd⟩, fun s => rfl⟩
  obtain ⟨hlenlt, hget⟩ := List.getElem?_eq_some_iff.mp hi
  have hdecomp : p.instances
      = p.instances.take index ++ inst :: p.instances.drop (index + 1) := by
    conv_lhs => rw [← List.take_append_drop index p.instances]
    rw [List.drop_eq_getElem_cons hlenlt, hget]
  set A0 := p.instances.take index with hA0
  set B0 := p.instances.drop (index + 1) with hB0
  have hA0len : A0.length = index := by
    rw [hA0]
    simp only [List.length_take]
    omega
  have hOkD : ∀ y ∈ A0 ++ inst :: B0, Pool.instOk p.nextHandle A y := by
    intro y hy
    exact hOk y (by rw [hdecomp]; exact hy)
  have hNdD : ((A0 ++ inst :: B0).map Pool.Instance.signal).Nodup := by
    rw [← hdecomp]
    exact hNd
  have hinstOk : Pool.instOk p.nextHandle A inst := hOkD inst (by simp)
  simp only [List.map_append, List.map_cons, List.nodup_append, List.nodup_cons,
    List.disjoint_cons_right] at hNdD
  obtain ⟨hndA, ⟨hsigB, hndB⟩, hsigA, hdisjAB⟩ := hNdD
  have hAs : ∀ y ∈ A0, y.signal ≠ inst.signal := by
    intro y hy h
    exact hsigA (h ▸ List.mem_map_of_mem _ hy)
  have hBs : ∀ y ∈ B0, y.signal ≠ inst.signal := by
    intro y hy h
    exact hsigB (h ▸ List.mem_map_of_mem _ hy)
  have hdisj : ∀ t ∈ A0.map Pool.Instance.signal, t ∉ B0.map Pool.Instance.signal :=
    fun t htA htB => hdisjAB htA htB
  have hOkA : ∀ y ∈ A0, Pool.instOk p.nextHandle A y :=
    fun y hy => hOkD y (List.mem_append_left _ hy)
  have hOkB : ∀ y ∈ B0, Pool.instOk p.nextHandle A y :=
    fun y hy => hOkD y (List.mem_append_right _ (List.mem_cons_of_mem _ hy))
  by_cases hp : inst.pending
  · cases hst : inst.state with
    | connecting =>
      cases hck : o.createOk with
      | true =>
        have hd : Pool.dispatchPass p o
            = ((Pool.serviceSlot (Pool.addPipe (Pool.setSlot p index { signal := inst.signal, state := Pool.PipeState.reading, pending := true }) true).1 index o).1,
                (Pool.addPipe (Pool.setSlot p index { signal := inst.signal, state := Pool.PipeState.reading, pending := true }) true).2.1
                  ++ (Pool.serviceSlot (Pool.addPipe (Pool.setSlot p index { signal := inst.signal, state := Pool.PipeState.reading, pending := true }) true).1 index o).2) := by
          simp only [Pool.dispatchPass, ho, hi, hp, if_true, hst, hck]
        have hq2i : (Pool.addPipe (Pool.setSlot p index { signal := inst.signal, state := Pool.PipeState.reading, pending := true }) true).1.instances
            = A0 ++ ({ signal := inst.signal, state := Pool.PipeState.reading, pending := true } : Pool.Instance)
              :: (B0 ++ [{ signal := p.nextHandle, state := Pool.PipeState.connecting, pending := true }]) := by
          show p.instances.set index _ ++ _ = _
          rw [hdecomp, ← hA0len, list_middle_set, List.append_assoc, List.cons_append]
          rfl
        have hmain := serviceSlot_reading_good
          (Pool.addPipe (Pool.setSlot p index { signal := inst.signal, state := Pool.PipeState.reading, pending := true }) true).1 index A0
          (B0 ++ [{ signal := p.nextHandle, state := Pool.PipeState.connecting, pending := true }])
          { signal := inst.signal, state := Pool.PipeState.reading, pending := true }
          o A hq2i hA0len rfl
          (Nat.lt_succ_of_lt hinstOk.1)
          (fun y hy => instOk_mono _ _ A A y (hOkA y hy) (Nat.le_succ _) rfl)
          (fun y hy => hAs y hy)
          (fun y hy => by
            rcases List.mem_append.mp hy with hy | hy
            · exact instOk_mono _ _ A A y (hOkB y hy) (Nat.le_succ _) rfl
            · rw [List.mem_singleton] at hy
              subst hy
              exact ⟨Nat.lt_succ_self _, by simp, fun h1 => by simp at h1⟩)
          (fun y hy => by
            rcases List.mem_append.mp hy with hy | hy
            · exact hBs y hy
            · rw [List.mem_singleton] at hy
              subst hy
              show p.nextHandle ≠ inst.signal
              have := hinstOk.1
              omega)
          hndA
          (by
            simp only [List.map_append, List.nodup_append]
            refine ⟨hndB, by simp, ?_⟩
            intro t htB htN
            rw [List.mem_map] at htB
            obtain ⟨y, hyB, hysig⟩ := htB
            rw [List.map_singleton, List.mem_singleton] at htN
            have htN2 : t = p.nextHandle := htN
            have := (hOkB y hyB).1
            omega)
          (by
            intro t htA htBN
            rw [List.map_append] at htBN
            rcases List.mem_append.mp htBN with ht | ht
            · exact hdisj t htA ht
            · rw [List.mem_map] at htA
              obtain ⟨y, hyA, hysig⟩ := htA
              rw [List.map_singleton, List.mem_singleton] at ht
              have ht2 : t = p.nextHandle := ht
              have := (hOkA y hyA).1
              omega)
        rw [hd]
        have hpre : ∀ t, Pool.tagsOf t (Pool.addPipe (Pool.setSlot p index { signal := inst.signal, state := Pool.PipeState.reading, pending := true }) true).2.1 = [] := by
          intro t
          simp [Pool.addPipe, Pool.tagsOf]
        refine ⟨goodTrace_congr _ _ _ (fun t => ?_) hmain.1, fun s => ?_⟩
        · show Pool.armAfter (A t) (Pool.tagsOf t (_ ++ _)) = _
          rw [tagsOf_append, hpre t, List.nil_append]
        · show Pool.sepArm (A s) (Pool.tagsOf s (_ ++ _)) = true
          rw [tagsOf_append, hpre s, List.nil_append]
          exact hmain.2 s
      | false =>
        have hd : Pool.dispatchPass p o
            = ((Pool.serviceSlot (Pool.setSlot p index { signal := inst.signal, state := Pool.PipeState.reading, pending := true }) index o).1,
                [] ++ (Pool.serviceSlot (Pool.setSlot p index { signal := inst.signal, state := Pool.PipeState.reading, pending := true }) index o).2) := by
          simp only [Pool.dispatchPass, ho, hi, hp, if_true, hst, hck, Pool.addPipe,
            Bool.false_eq_true, if_false, List.nil_append]
        have hq2i : (Pool.setSlot p index { signal := inst.signal, state := Pool.PipeState.reading, pending := true }).instances
            = A0 ++ ({ signal := inst.signal, state := Pool.PipeState.reading, pending := true } : Pool.Instance) :: B0 := by
          show p.instances.set index _ = _
          rw [hdecomp, ← hA0len, list_middle_set]
        have hmain := serviceSlot_reading_good
          (Pool.setSlot p index { signal := inst.signal, state := Pool.PipeState.reading, pending := true }) index A0 B0
          { signal := inst.signal, state := Pool.PipeState.reading, pending := true }
          o A hq2i hA0len rfl hinstOk.1 hOkA (fun y hy => hAs y hy) hOkB
          (fun y hy => hBs y hy) hndA hndB hdisj
        rw [hd]
        exact ⟨goodTrace_congr _ _ _ (fun t => rfl) hmain.1, fun s => hmain.2 s⟩
    | reading =>
      by_cases hov : o.ovSuccess || o.ovMoreData
      · have hd : Pool.dispatchPass p o
            = Pool.serviceSlot (Pool.setSlot p index { signal := inst.signal, state := Pool.PipeState.sending, pending := true }) index o := by
          simp only [Pool.dispatchPass, ho, hi, hp, if_true, hst, hov]
        have hsetinst : (Pool.setSlot p index { signal := inst.signal, state := Pool.PipeState.sending, pending := true }).instances
            = A0 ++ ({ signal := inst.signal, state := Pool.PipeState.sending, pending := true } : Pool.Instance) :: B0 := by
          show p.instances.set index _ = _
          rw [hdecomp, ← hA0len, list_middle_set]
        have hlook2 : (Pool.setSlot p index { signal := inst.signal, state := Pool.PipeState.sending, pending := true }).instances[index]?
            = some { signal := inst.signal, state := Pool.PipeState.sending, pending := true } := by
          rw [hsetinst, ← hA0len]
          exact list_middle_getElem _ _ _
        have hAc : A inst.signal = true := hinstOk.2.2 hst hp
        rw [hd]
        simp only [Pool.serviceSlot, hlook2]
        have hinst3 : (Pool.setSlot (Pool.setSlot p index { signal := inst.signal, state := Pool.PipeState.sending, pending := true }) index { signal := inst.signal, state := Pool.PipeState.reading, pending := false }).instances
            = A0 ++ ({ signal := inst.signal, state := Pool.PipeState.reading, pending := false } : Pool.Instance) :: B0 := by
          show (Pool.setSlot p index _).instances.set index _ = _
          rw [hsetinst, ← hA0len, list_middle_set]
        have htag : ∀ s, Pool.tagsOf s [Pool.Event.lockAcquire, Pool.Event.callbackInvoke inst.signal, Pool.Event.lockRelease]
            = if inst.signal = s then [Pool.Tag.c] else [] := by
          intro s
          by_cases h : inst.signal = s <;> simp [Pool.tagsOf, h]
        have hAo : ∀ t, t ≠ inst.signal → Pool.armAfter (A t) (Pool.tagsOf t [Pool.Event.lockAcquire, Pool.Event.callbackInvoke inst.signal, Pool.Event.lockRelease]) = A t := by
          intro t ht
          rw [htag t, if_neg (fun h => ht h.symm)]
          rfl
        have hglue := ok_nodup_glue A0 B0
          [{ signal := inst.signal, state := Pool.PipeState.reading, pending := false }]
          inst.signal p.nextHandle
          (fun s => Pool.armAfter (A s) (Pool.tagsOf s [Pool.Event.lockAcquire, Pool.Event.callbackInvoke inst.signal, Pool.Event.lockRelease]))
          (fun y hy => instOk_mono _ _ A _ y (hOkA y hy) le_rfl (hAo _ (hAs y hy)))
          hAs
          (fun y hy => instOk_mono _ _ A _ y (hOkB y hy) le_rfl (hAo _ (hBs y hy)))
          hBs hndA hndB hdisj
          (fun y hy => by
            rw [List.mem_singleton] at hy
            subst hy
            exact ⟨hinstOk.1, by simp, fun h1 h2 => by simp at h2⟩)
          (fun y hy => by
            rw [List.mem_singleton] at hy
            subst hy
            rfl)
          (by simp)
        constructor
        · exact ⟨fun y hy => hglue.1 y (by rw [hinst3] at hy; exact hy),
            by rw [hinst3]; exact hglue.2⟩
        · intro s
          by_cases h : inst.signal = s <;> rw [htag s]
          · rw [if_pos h]
            simp [Pool.sepArm, ← h, hAc]
          · rw [if_neg h]
            rfl
      · have hd : Pool.dispatchPass p o = Pool.serviceSlot p index o := by
          simp only [Pool.dispatchPass, ho, hi, hp, if_true, hst, hov,
            Bool.false_eq_true, if_false]
        rw [hd]
        exact serviceSlot_reading_good p index A0 B0 inst o A hdecomp hA0len hst
          hinstOk.1 hOkA hAs hOkB hBs hndA hndB hdisj
    | sending => exact absurd hst hinstOk.2.1
  · cases hst : inst.state with
    | connecting =>
      have hd : Pool.dispatchPass p o = (p, []) := by
        simp only [Pool.dispatchPass, ho, hi, hp, Bool.false_eq_true, if_false,
          Pool.serviceSlot, hst]
      rw [hd]
      exact ⟨⟨hOk, hNd⟩, fun s => rfl⟩
    | reading =>
      have hd : Pool.dispatchPass p o = Pool.serviceSlot p index o := by
        simp only [Pool.dispatchPass, ho, hi, hp, Bool.false_eq_true, if_false]
      rw [hd]
      exact serviceSlot_reading_good p index A0 B0 inst o A hdecomp hA0len hst
        hinstOk.1 hOkA hAs hOkB hBs hndA hndB hdisj
    | sending => exact absurd hst hinstOk.2.1

/-- Helper: a whole multiplexer run preserves the invariant, and every slot's
tag subtrace is read-separated. -/
theorem runPasses_goodTrace (os : List Pool.PassOracle) :
    ∀ (p : Pool.ThreadParam) (A : Nat → Bool), Pool.GoodTrace p A →
      (∀ s, Pool.sepArm (A s) (Pool.tagsOf s (Pool.runPasses p os).2) = true) ∧
      Pool.GoodTrace (Pool.runPasses p os).1
        (fun s => Pool.armAfter (A s) (Pool.tagsOf s (Pool.runPasses p os).2)) := by
  induction os with
  | nil =>
    intro p A hG
    exact ⟨fun s => rfl, hG⟩
  | cons o rest ih =>
    intro p A hG
    have hstep := dispatchPass_goodTrace p o A hG
    have hrec := ih (Pool.dispatchPass p o).1
      (fun s => Pool.armAfter (A s) (Pool.tagsOf s (Pool.dispatchPass p o).2)) hstep.1
    constructor
    · intro s
      show Pool.sepArm (A s) (Pool.tagsOf s ((Pool.dispatchPass p o).2
        ++ (Pool.runPasses (Pool.dispatchPass p o).1 rest).2)) = true
      rw [tagsOf_append, sepArm_append, hstep.2 s, hrec.1 s]
      rfl
    · show Pool.GoodTrace (Pool.runPasses (Pool.dispatchPass p o).1 rest).1 _
      refine goodTrace_congr _ _ _ (fun t => ?_) hrec.2
      show Pool.armAfter (A t) (Pool.tagsOf t ((Pool.dispatchPass p o).2
        ++ (Pool.runPasses (Pool.dispatchPass p o).1 rest).2)) = _
      rw [tagsOf_append, armAfter_append]

/-- Helper: the constructed receiver state satisfies the invariant with the
initially unarmed trace map. -/
theorem receiverInit_goodTrace (cb : Nat) :
    Pool.GoodTrace (Pool.receiverInit cb true) (fun _ => false) := by
  constructor
  · intro inst hmem
    simp only [Pool.receiverInit, Pool.addPipe, if_true, List.nil_append,
      List.mem_singleton] at hmem
    subst hmem
    exact ⟨Nat.zero_lt_one, by simp, fun h1 => by simp at h1⟩
  · simp [Pool.receiverInit, Pool.addPipe]

/-- C9: within one connection slot, deliveries are strictly serialized by the
read cycle: in every trace of the worker from a freshly constructed receiver,
the per-slot subtrace of read issuances and callback invocations is
read-separated — a delivery happens only after a read was issued on that slot
since the previous delivery, so the callback for message N (which returns
before the single-threaded worker does anything else) precedes the read for
message N+1, deliveries on a slot never overlap, and each message is
delivered at most once per completed read. -/
theorem slot_deliveries_read_separated (cb : Nat) (os : List Pool.PassOracle) (s : Nat) :
    Pool.readSeparated
      (Pool.tagsOf s (Pool.runPasses (Pool.receiverInit cb true) os).2) = true :=
  (runPasses_goodTrace os (Pool.receiverInit cb true) (fun _ => false)
    (receiverInit_goodTrace cb)).1 s

/-- Helper: `connectingCount` over a decomposed pool. -/
theorem countP_middle (A B : List Pool.Instance) (x : Pool.Instance)
    (q : Pool.Instance → Bool) :
    (A ++ x :: B).countP q
      = A.countP q + (B.countP q + if q x = true then 1 else 0) := by
  simp [List.countP_append, List.countP_cons]

/-- Helper: servicing a `reading` slot leaves the connecting-slot count of
the surroundings unchanged (the slot stays `reading` or is removed, and no
slot is created). -/
theorem serviceSlot_reading_count (q : Pool.ThreadParam) (index : Nat)
    (A0 B0 : List Pool.Instance) (x : Pool.Instance) (o : Pool.PassOracle)
    (hq : q.instances = A0 ++ x :: B0) (hlen : A0.length = index)
    (hxstate : x.state = Pool.PipeState.reading) :
    Pool.connectingCount (Pool.serviceSlot q index o).1
      = (A0.countP fun y => y.state == Pool.PipeState.connecting)
        + (B0.countP fun y => y.state == Pool.PipeState.connecting) := by
  have hlook : q.instances[index]? = some x := by
    rw [hq, ← hlen]
    exact list_middle_getElem _ _ _
  cases hro : o.readOutcome with
  | immediate =>
    simp only [Pool.serviceSlot, hlook, hxstate, hro]
    show ((Pool.setSlot q index _).instances.countP _) = _
    show ((q.instances.set index _).countP _) = _
    rw [hq, ← hlen, list_middle_set, countP_middle]
    simp
  | moreData =>
    simp only [Pool.serviceSlot, hlook, hxstate, hro]
    show ((Pool.setSlot q index _).instances.countP _) = _
    show ((q.instances.set index _).countP _) = _
    rw [hq, ← hlen, list_middle_set, countP_middle]
    simp
  | ioPending =>
    simp only [Pool.serviceSlot, hlook, hxstate, hro]
    show ((Pool.setSlot q index _).instances.countP _) = _
    show ((q.instances.set index _).countP _) = _
    rw [hq, ← hlen, list_middle_set, countP_middle]
    simp [hxstate]
  | failed =>
    simp only [Pool.serviceSlot, hlook, hxstate, hro, Pool.removePipe]
    show ((q.instances.eraseIdx index).countP _) = _
    rw [hq, ← hlen, list_middle_eraseIdx]
    simp [List.countP_append]

/-- Helper: one dispatch pass preserves the number of `connecting` slots when
slot creation succeeds: an accepted `connecting` slot turns `reading` and is
immediately replaced by the fresh slot `add_pipe` opens. -/
theorem dispatchPass_connectingCount (p : Pool.ThreadParam) (o : Pool.PassOracle)
    (hns : ∀ x ∈ p.instances, x.state ≠ Pool.PipeState.sending)
    (hok : o.createOk = true) :
    Pool.connectingCount (Pool.dispatchPass p o).1 = Pool.connectingCount p := by
  rcases ho : o.signaledIndex with _ | index
  · simp only [Pool.dispatchPass, ho]
  rcases hi : p.instances[index]? with _ | inst
  · simp only [Pool.dispatchPass, ho, hi]
  obtain ⟨hlenlt, hget⟩ := List.getElem?_eq_some_iff.mp hi
  have hdecomp : p.instances
      = p.instances.take index ++ inst :: p.instances.drop (index + 1) := by
    conv_lhs => rw [← List.take_append_drop index p.instances]
    rw [List.drop_eq_getElem_cons hlenlt, hget]
  set A0 := p.instances.take index with hA0
  set B0 := p.instances.drop (index + 1) with hB0
  have hA0len : A0.length = index := by
    rw [hA0]
    simp only [List.length_take]
    omega
  have hcount : Pool.connectingCount p
      = (A0.countP fun y => y.state == Pool.PipeState.connecting)
        + ((B0.countP fun y => y.state == Pool.PipeState.connecting)
          + if inst.state == Pool.PipeState.connecting then 1 else 0) := by
    show p.instances.countP _ = _
    rw [hdecomp, countP_middle]
  have hnsInst : inst.state ≠ Pool.PipeState.sending :=
    hns inst (by rw [hdecomp]; simp)
  by_cases hp : inst.pending
  · cases hst : inst.state with
    | connecting =>
      have hd : Pool.dispatchPass p o
          = ((Pool.serviceSlot (Pool.addPipe (Pool.setSlot p index { signal := inst.signal, state := Pool.PipeState.reading, pending := true }) true).1 index o).1,
              (Pool.addPipe (Pool.setSlot p index { signal := inst.signal, state := Pool.PipeState.reading, pending := true }) true).2.1
                ++ (Pool.serviceSlot (Pool.addPipe (Pool.setSlot p index { signal := inst.signal, state := Pool.PipeState.reading, pending := true }) true).1 index o).2) := by
        simp only [Pool.dispatchPass, ho, hi, hp, if_true, hst, hok]
      have hq2i : (Pool.addPipe (Pool.setSlot p index { signal := inst.signal, state := Pool.PipeState.reading, pending := true }) true).1.instances
          = A0 ++ ({ signal := inst.signal, state := Pool.PipeState.reading, pending := true } : Pool.Instance)
            :: (B0 ++ [{ signal := p.nextHandle, state := Pool.PipeState.connecting, pending := true }]) := by
        show p.instances.set index _ ++ _ = _
        rw [hdecomp, ← hA0len, list_middle_set, List.append_assoc, List.cons_append]
        rfl
      rw [hd]
      show Pool.connectingCount (Pool.serviceSlot _ index o).1 = _
      rw [serviceSlot_reading_count _ index A0
        (B0 ++ [{ signal := p.nextHandle, state := Pool.PipeState.connecting, pending := true }])
        { signal := inst.signal, state := Pool.PipeState.reading, pending := true }
        o hq2i hA0len rfl, hcount, hst]
      simp [List.countP_append]
    | reading =>
      by_cases hov : o.ovSuccess || o.ovMoreData
      · have hd : Pool.dispatchPass p o
            = Pool.serviceSlot (Pool.setSlot p index { signal := inst.signal, state := Pool.PipeState.sending, pending := true }) index o := by
          simp only [Pool.dispatchPass, ho, hi, hp, if_true, hst, hov]
        have hsetinst : (Pool.setSlot p index { signal := inst.signal, state := Pool.PipeState.sending, pending := true }).instances
            = A0 ++ ({ signal := inst.signal, state := Pool.PipeState.sending, pending := true } : Pool.Instance) :: B0 := by
          show p.instances.set index _ = _
          rw [hdecomp, ← hA0len, list_middle_set]
        have hlook2 : (Pool.setSlot p index { signal := inst.signal, state := Pool.PipeState.sending, pending := true }).instances[index]?
            = some { signal := inst.signal, state := Pool.PipeState.sending, pending := true } := by
          rw [hsetinst, ← hA0len]
          exact list_middle_getElem _ _ _
        rw [hd]
        simp only [Pool.serviceSlot, hlook2]
        show ((Pool.setSlot _ index _).instances.countP _) = _
        show ((Pool.setSlot p index _).instances.set index _).countP _ = _
        rw [hsetinst, ← hA0len, list_middle_set, countP_middle, hcount, hst]
      · have hd : Pool.dispatchPass p o = Pool.serviceSlot p index o := by
          simp only [Pool.dispatchPass, ho, hi, hp, if_true, hst, hov,
            Bool.false_eq_true, if_false]
        rw [hd, serviceSlot_reading_count p index A0 B0 inst o hdecomp hA0len hst,
          hcount, hst]
        simp
    | sending => exact absurd hst hnsInst
  · cases hst : inst.state with
    | connecting =>
      have hd : Pool.dispatchPass p o = (p, []) := by
        simp only [Pool.dispatchPass, ho, hi, hp, Bool.false_eq_true, if_false,
          Pool.serviceSlot, hst]
      rw [hd]
    | reading =>
      have hd : Pool.dispatchPass p o = Pool.serviceSlot p index o := by
        simp only [Pool.dispatchPass, ho, hi, hp, Bool.false_eq_true, if_false]
      rw [hd, serviceSlot_reading_count p index A0 B0 inst o hdecomp hA0len hst,
        hcount, hst]
      simp
    | sending => exact absurd hst hnsInst

/-- Helper: the connecting-slot count is invariant over whole runs in which
every slot creation succeeds. -/
theorem runPasses_connectingCount (os : List Pool.PassOracle) :
    ∀ (p : Pool.ThreadParam) (A : Nat → Bool), Pool.GoodTrace p A →
      (∀ o ∈ os, o.createOk = true) →
      Pool.connectingCount (Pool.runPasses p os).1 = Pool.connectingCount p := by
  induction os with
  | nil => intro p A hG hok; rfl
  | cons o rest ih =>
    intro p A hG hok
    have hstep := dispatchPass_goodTrace p o A hG
    have hcnt := dispatchPass_connectingCount p o
      (fun x hx => (hG.1 x hx).2.1) (hok o (by simp))
    show Pool.connectingCount (Pool.runPasses (Pool.dispatchPass p o).1 rest).1 = _
    rw [ih (Pool.dispatchPass p o).1 _ hstep.1 (fun o2 ho2 => hok o2 (by simp [ho2]))]
    exact hcnt

/-- C4 counterexample: starting from a freshly constructed receiver (one
`connecting` slot), a single pass in which the accept completes but
`create_instance` fails (`createOk = false`, silently ignored by the code)
reaches a state whose pool holds one slot and zero `connecting` slots — so
"exactly one slot in the Connecting state" does not hold in every reachable
state. -/
theorem acceptance_pool_counterexample :
    Pool.connectingCount (Pool.runPasses (Pool.receiverInit 0 true)
        [{ signaledIndex := some 0, ovSuccess := true, ovMoreData := false,
           createOk := false, readOutcome := Pool.ReadOutcome.ioPending }]).1 = 0 ∧
    (Pool.runPasses (Pool.receiverInit 0 true)
        [{ signaledIndex := some 0, ovSuccess := true, ovMoreData := false,
           createOk := false, readOutcome := Pool.ReadOutcome.ioPending }]).1.instances.length
      = 1 := by
  constructor <;> rfl

/-- C4 amended: provided every `create_instance` call succeeds, every state
reachable between dispatch passes from a constructed receiver has exactly one
slot in `Connecting` state (hence at least one slot); and whenever a pending
`Connecting` slot's accept completes with slot creation succeeding, the pass
emits the fresh-slot event before any event of the accepted slot. -/
theorem acceptance_pool_one_connecting (cb : Nat) (os : List Pool.PassOracle)
    (hok : ∀ o ∈ os, o.createOk = true) :
    Pool.connectingCount (Pool.runPasses (Pool.receiverInit cb true) os).1 = 1 ∧
    1 ≤ (Pool.runPasses (Pool.receiverInit cb true) os).1.instances.length ∧
    (∀ (p : Pool.ThreadParam) (o : Pool.PassOracle) (index : Nat) (inst : Pool.Instance),
      o.signaledIndex = some index → p.instances[index]? = some inst →
      inst.pending = true → inst.state = Pool.PipeState.connecting →
      o.createOk = true →
      ∃ evs, (Pool.dispatchPass p o).2 = Pool.Event.addSlot p.nextHandle :: evs) := by
  have hcnt : Pool.connectingCount (Pool.runPasses (Pool.receiverInit cb true) os).1 = 1 := by
    rw [runPasses_connectingCount os (Pool.receiverInit cb true) (fun _ => false)
      (receiverInit_goodTrace cb) hok]
    rfl
  refine ⟨hcnt, ?_, ?_⟩
  · calc 1 = Pool.connectingCount (Pool.runPasses (Pool.receiverInit cb true) os).1 :=
        hcnt.symm
      _ ≤ (Pool.runPasses (Pool.receiverInit cb true) os).1.instances.length :=
        List.countP_le_length _
  · intro p o index inst ho hi hp hst hck
    refine ⟨(Pool.serviceSlot (Pool.addPipe (Pool.setSlot p index { signal := inst.signal, state := Pool.PipeState.reading, pending := true }) true).1 index o).2, ?_⟩
    simp only [Pool.dispatchPass, ho, hi, hp, if_true, hst, hck]
    rfl

/-- C4 witness: with one successful-creation pass that completes the initial
accept, the run keeps exactly one `connecting` slot. -/
theorem acceptance_pool_one_connecting_witness :
    Pool.connectingCount (Pool.runPasses (Pool.receiverInit 0 true)
        [{ signaledIndex := some 0, ovSuccess := true, ovMoreData := false,
           createOk := true, readOutcome := Pool.ReadOutcome.ioPending }]).1 = 1 :=
  (acceptance_pool_one_connecting 0
    [{ signaledIndex := some 0, ovSuccess := true, ovMoreData := false,
       createOk := true, readOutcome := Pool.ReadOutcome.ioPending }]
    (by intro o ho; rw [List.mem_singleton] at ho; rw [ho])).1

end WinPipe
